import Mathlib

/-!
Verification of the MilterDecoder server (Rust sources under `src/`) against
its natural-language specification.

The development is a shallow embedding: Rust byte buffers (`&[u8]`, `Vec<u8>`,
the UTF-8 byte content of `String`) become `List Nat` with every element below
256; `u32` arithmetic becomes `Nat` arithmetic with explicit masking where the
source masks; fallible control flow becomes `Option`.  Network and console
I/O are modelled by their observable data: the response frames written to the
socket and the log events the claims talk about.
-/

/-! ## Byte-level helpers (big-endian 32-bit fields, `u32::from_be_bytes` /
`u32::to_be_bytes` in `milter.rs`) -/

/-- `u32::from_be_bytes [b0,b1,b2,b3]`: big-endian 32-bit read. -/
def be32 (b0 b1 b2 b3 : Nat) : Nat :=
  ((b0 * 256 + b1) * 256 + b2) * 256 + b3

/-- `u32::to_be_bytes`: the four big-endian bytes of a 32-bit value. -/
def be32Bytes (n : Nat) : List Nat :=
  [n / 16777216 % 256, n / 65536 % 256, n / 256 % 256, n % 256]

theorem be32Bytes_be32 {a b c d : Nat} (ha : a < 256) (hb : b < 256)
    (hc : c < 256) (hd : d < 256) : be32Bytes (be32 a b c d) = [a, b, c, d] := by
  simp only [be32, be32Bytes, List.cons.injEq, and_true]
  refine ⟨?_, ?_, ?_, ?_⟩ <;> omega

theorem be32_lt {a b c d : Nat} (ha : a < 256) (hb : b < 256)
    (hc : c < 256) (hd : d < 256) : be32 a b c d < 2 ^ 32 := by
  simp only [be32]; omega

/-! ## Option negotiation (`decode_optneg`, `milter.rs` lines 38–108)

The Rust function extracts three big-endian `u32` fields from the first
12 payload bytes, logs them, and (when the payload is long enough) writes the
13-byte response `BE32(13) || 0x4F || version || actions ||
(protocol_flags & !(0x10|0x20))`.  On a `u32`, `!(0x10|0x20) = 0xFFFFFFCF`.
When the payload is shorter than 12 bytes it only prints a log line; the
response value is `none` and — see `handleFrame` below — the session
continues. -/

/-- The response frame written by `decode_optneg`, or `none` when the payload
is shorter than 12 bytes (in which case no frame is written). -/
def decode_optneg_resp (payload : List Nat) : Option (List Nat) :=
  if 12 ≤ payload.length then
    let protocol_ver := be32 (payload.getD 0 0) (payload.getD 1 0) (payload.getD 2 0) (payload.getD 3 0)
    let actions := be32 (payload.getD 4 0) (payload.getD 5 0) (payload.getD 6 0) (payload.getD 7 0)
    let protocol_flags := be32 (payload.getD 8 0) (payload.getD 9 0) (payload.getD 10 0) (payload.getD 11 0)
    some (be32Bytes 13 ++ [0x4F] ++ be32Bytes protocol_ver ++ be32Bytes actions
      ++ be32Bytes (protocol_flags &&& 0xFFFFFFCF))
  else none

theorem testBit_mask_cf (i : Nat) (h4 : i ≠ 4) (h5 : i ≠ 5) (h32 : i < 32) :
    Nat.testBit 0xFFFFFFCF i = true := by
  interval_cases i <;> first | rfl | simp_all

/-- Clearing `0x30` on a 32-bit value: bits 4 and 5 of `x &&& 0xFFFFFFCF` are
zero and every other bit of `x` is preserved. -/
theorem mask_cf_bits (x : Nat) (hx : x < 2 ^ 32) :
    (x &&& 0xFFFFFFCF).testBit 4 = false ∧ (x &&& 0xFFFFFFCF).testBit 5 = false ∧
    ∀ i, i ≠ 4 → i ≠ 5 → (x &&& 0xFFFFFFCF).testBit i = x.testBit i := by
  refine ⟨?_, ?_, ?_⟩
  · rw [Nat.testBit_and]
    have h : Nat.testBit 0xFFFFFFCF 4 = false := by decide
    simp [h]
  · rw [Nat.testBit_and]
    have h : Nat.testBit 0xFFFFFFCF 5 = false := by decide
    simp [h]
  · intro i h4 h5
    rw [Nat.testBit_and]
    rcases Nat.lt_or_ge i 32 with h32 | h32
    · have h : Nat.testBit 0xFFFFFFCF i = true := testBit_mask_cf i h4 h5 h32
      simp [h]
    · have hxf : x.testBit i = false :=
        Nat.testBit_eq_false_of_lt (lt_of_lt_of_le hx (Nat.pow_le_pow_right (by omega) h32))
      simp [hxf]

/-- C1: for every OPTNEG payload of at least 12 bytes, `decode_optneg` writes
the frame `BE32(13) || 0x4F || version || actions_mask ||
(protocol_mask & ~0x30)`: the version and actions fields are echoed byte for
byte, the response protocol mask has bits 0x10 and 0x20 cleared, and every
other bit of the protocol mask is preserved from the request. -/
theorem decode_optneg_echoes_and_clears_0x30 (payload : List Nat)
    (h12 : 12 ≤ payload.length) (hb : ∀ b ∈ payload, b < 256) :
    decode_optneg_resp payload =
      some ([0, 0, 0, 13, 0x4F]
        ++ [payload.getD 0 0, payload.getD 1 0, payload.getD 2 0, payload.getD 3 0]
        ++ [payload.getD 4 0, payload.getD 5 0, payload.getD 6 0, payload.getD 7 0]
        ++ be32Bytes ((be32 (payload.getD 8 0) (payload.getD 9 0) (payload.getD 10 0)
              (payload.getD 11 0)) &&& 0xFFFFFFCF)) ∧
    (((be32 (payload.getD 8 0) (payload.getD 9 0) (payload.getD 10 0)
        (payload.getD 11 0)) &&& 0xFFFFFFCF).testBit 4 = false) ∧
    (((be32 (payload.getD 8 0) (payload.getD 9 0) (payload.getD 10 0)
        (payload.getD 11 0)) &&& 0xFFFFFFCF).testBit 5 = false) ∧
    (∀ i, i ≠ 4 → i ≠ 5 →
      ((be32 (payload.getD 8 0) (payload.getD 9 0) (payload.getD 10 0)
          (payload.getD 11 0)) &&& 0xFFFFFFCF).testBit i =
        (be32 (payload.getD 8 0) (payload.getD 9 0) (payload.getD 10 0)
          (payload.getD 11 0)).testBit i) := by
  have hbyte : ∀ i, i < 12 → payload.getD i 0 < 256 := by
    intro i hi
    have hmem : payload.getD i 0 ∈ payload := by
      rw [List.getD_eq_getElem payload 0 (by omega)]
      exact List.getElem_mem _
    exact hb _ hmem
  have hlt : be32 (payload.getD 8 0) (payload.getD 9 0) (payload.getD 10 0)
      (payload.getD 11 0) < 2 ^ 32 :=
    be32_lt (hbyte 8 (by omega)) (hbyte 9 (by omega)) (hbyte 10 (by omega)) (hbyte 11 (by omega))
  have hm := mask_cf_bits _ hlt
  refine ⟨?_, hm.1, hm.2.1, hm.2.2⟩
  simp only [decode_optneg_resp, if_pos h12]
  rw [be32Bytes_be32 (hbyte 0 (by omega)) (hbyte 1 (by omega)) (hbyte 2 (by omega)) (hbyte 3 (by omega)),
      be32Bytes_be32 (hbyte 4 (by omega)) (hbyte 5 (by omega)) (hbyte 6 (by omega)) (hbyte 7 (by omega))]
  rfl

/-- Witness for C1: the spec's scenario S1 (version 6, actions 0x7F,
protocol mask 0x3F). -/
theorem decode_optneg_echoes_and_clears_0x30_witness :
    12 ≤ ([0, 0, 0, 6, 0, 0, 0, 0x7F, 0, 0, 0, 0x3F] : List Nat).length ∧
    decode_optneg_resp [0, 0, 0, 6, 0, 0, 0, 0x7F, 0, 0, 0, 0x3F] =
      some [0, 0, 0, 13, 0x4F, 0, 0, 0, 6, 0, 0, 0, 0x7F, 0, 0, 0, 0x0F] := by
  refine ⟨by decide, ?_⟩
  have h := decode_optneg_echoes_and_clears_0x30
    [0, 0, 0, 6, 0, 0, 0, 0x7F, 0, 0, 0, 0x3F] (by decide) (by decide)
  rw [h.1]; rfl

/-! ## `String::from_utf8_lossy` at the byte level

`decode_body` and `decode_header` (`milter.rs` lines 257–272) run the raw
payload through `String::from_utf8_lossy` before storing it, and Rust
`String`s store UTF-8 bytes.  We model both the lossy conversion (each
maximal invalid subpart becomes U+FFFD, and an incomplete final sequence
becomes a single U+FFFD, exactly as in `core::str`'s UTF-8 validation) and
plain validity at the byte level. -/

/-- A UTF-8 continuation byte, `0x80–0xBF`. -/
def contB (b : Nat) : Bool := 0x80 ≤ b && b ≤ 0xBF

/-- Allowed second byte of a 3-byte UTF-8 sequence headed by `b`
(`0xE0`: `A0–BF`, `0xED`: `80–9F`, otherwise `80–BF`). -/
def snd3OK (b c : Nat) : Bool :=
  if b = 0xE0 then 0xA0 ≤ c && c ≤ 0xBF
  else if b = 0xED then 0x80 ≤ c && c ≤ 0x9F
  else contB c

/-- Allowed second byte of a 4-byte UTF-8 sequence headed by `b`
(`0xF0`: `90–BF`, `0xF4`: `80–8F`, otherwise `80–BF`). -/
def snd4OK (b c : Nat) : Bool :=
  if b = 0xF0 then 0x90 ≤ c && c ≤ 0xBF
  else if b = 0xF4 then 0x80 ≤ c && c ≤ 0x8F
  else contB c

/-- The UTF-8 encoding of U+FFFD, the replacement character. -/
def repChar : List Nat := [0xEF, 0xBF, 0xBD]

/-- `String::from_utf8_lossy` on a byte sequence, producing the UTF-8 bytes
of the resulting string.  Error recovery resumes at the first byte that is
not part of a maximal valid prefix of a sequence; a truncated final sequence
yields a single replacement character. -/
def utf8Lossy : List Nat → List Nat
  | [] => []
  | b :: rest =>
    if b < 0x80 then b :: utf8Lossy rest
    else if 0xC2 ≤ b && b ≤ 0xDF then
      match rest with
      | [] => repChar
      | c :: rest2 =>
        if contB c then b :: c :: utf8Lossy rest2
        else repChar ++ utf8Lossy (c :: rest2)
    else if 0xE0 ≤ b && b ≤ 0xEF then
      match rest with
      | [] => repChar
      | c :: rest2 =>
        if snd3OK b c then
          match rest2 with
          | [] => repChar
          | d :: rest3 =>
            if contB d then b :: c :: d :: utf8Lossy rest3
            else repChar ++ utf8Lossy (d :: rest3)
        else repChar ++ utf8Lossy (c :: rest2)
    else if 0xF0 ≤ b && b ≤ 0xF4 then
      match rest with
      | [] => repChar
      | c :: rest2 =>
        if snd4OK b c then
          match rest2 with
          | [] => repChar
          | d :: rest3 =>
            if contB d then
              match rest3 with
              | [] => repChar
              | e :: rest4 =>
                if contB e then b :: c :: d :: e :: utf8Lossy rest4
                else repChar ++ utf8Lossy (e :: rest4)
            else repChar ++ utf8Lossy (d :: rest3)
        else repChar ++ utf8Lossy (c :: rest2)
    else repChar ++ utf8Lossy rest
termination_by bs => bs.length
decreasing_by all_goals simp_arith

/-- `str::from_utf8` succeeds on these bytes. -/
def utf8Valid : List Nat → Bool
  | [] => true
  | b :: rest =>
    if b < 0x80 then utf8Valid rest
    else if 0xC2 ≤ b && b ≤ 0xDF then
      match rest with
      | [] => false
      | c :: rest2 => if contB c then utf8Valid rest2 else false
    else if 0xE0 ≤ b && b ≤ 0xEF then
      match rest with
      | [] => false
      | c :: rest2 =>
        if snd3OK b c then
          match rest2 with
          | [] => false
          | d :: rest3 => if contB d then utf8Valid rest3 else false
        else false
    else if 0xF0 ≤ b && b ≤ 0xF4 then
      match rest with
      | [] => false
      | c :: rest2 =>
        if snd4OK b c then
          match rest2 with
          | [] => false
          | d :: rest3 =>
            if contB d then
              match rest3 with
              | [] => false
              | e :: rest4 => if contB e then utf8Valid rest4 else false
            else false
        else false
    else false

/-- On valid UTF-8 input the lossy conversion is the identity. -/
theorem utf8Lossy_of_valid : ∀ bs : List Nat, utf8Valid bs = true → utf8Lossy bs = bs := by
  intro bs h
  induction bs using utf8Lossy.induct <;>
    (rw [utf8Lossy.eq_def] <;>
      (rw [utf8Valid.eq_def] at h
       dsimp only at h ⊢
       split_ifs at h ⊢ <;> first | omega | rfl | (simp_all; try omega)))

/-! ## Per-session state and command dispatch (`client.rs` `handle_client`)

`handle_client` keeps four per-connection accumulators (`client.rs` lines
52–59): `is_body_eob`, `is_header_block`, `header_fields :
HashMap<String, Vec<String>>` and `body_field : String`.  A `HashMap` has no
iteration order, so its contents are represented here as an association list
in first-insertion order; the order in which `parse_mail` will iterate over
it is supplied separately (see `headerLines` below).  Strings are their
UTF-8 bytes. -/

/-- Per-connection mutable state of `handle_client`.  `header_fields` is the
contents of the Rust `HashMap`, keyed by header-name bytes, values in arrival
order, entries listed in first-insertion order. -/
structure Session where
  is_body_eob : Bool
  is_header_block : Bool
  header_fields : List (List Nat × List (List Nat))
  body_field : List Nat
deriving DecidableEq, Repr

/-- The accumulators as initialised at the top of `handle_client`. -/
def initialSession : Session :=
  { is_body_eob := false, is_header_block := false, header_fields := [], body_field := [] }

/-- `MilterCommand` (`milter_command.rs`). -/
inductive MilterCommand where
  | Abort | Accept | AddHeader | Body | Connect | Data | DeleteHeader | DeleteRcpt
  | Eoh | Eom | Header | HeLO | OptNeg | Quit | Rcpt
deriving DecidableEq, Repr

/-- `MilterCommand::from_u8` (`milter_command.rs` lines 159–178). -/
def MilterCommand.from_u8 (val : Nat) : Option MilterCommand :=
  if val = 0x41 then some .Abort
  else if val = 0x61 then some .Accept
  else if val = 0x68 then some .AddHeader
  else if val = 0x42 then some .Body
  else if val = 0x43 then some .Connect
  else if val = 0x44 then some .Data
  else if val = 0x64 then some .DeleteHeader
  else if val = 0x72 then some .DeleteRcpt
  else if val = 0x45 then some .Eoh
  else if val = 0x4D then some .Eom
  else if val = 0x4C then some .Header
  else if val = 0x48 then some .HeLO
  else if val = 0x4F then some .OptNeg
  else if val = 0x51 then some .Quit
  else if val = 0x52 then some .Rcpt
  else none

/-- One uppercase hex digit, `0–9A–F`. -/
def hexDigit (n : Nat) : Nat := if n < 10 then 48 + n else 55 + n

/-- `format!("{:02X}", b)` for a byte. -/
def byteHex (b : Nat) : List Nat := [hexDigit (b / 16 % 16), hexDigit (b % 16)]

/-- The hex dump `payload.iter().map(|b| format!("{:02X}", b)).join(" ")`
(`client.rs` lines 232–236), as the bytes of the logged string. -/
def hexDump (payload : List Nat) : List Nat :=
  List.intercalate [32] (payload.map byteHex)

/-- The log events the claims refer to.  (All other `printdaytimeln!` output
is pure observability and is not modelled.) -/
inductive LogEvent where
  | payloadHexDump (text : List Nat)
  | optnegShortPayload (len : Nat)
deriving DecidableEq, Repr

/-- Drop the leading Unicode `White_Space` characters of a UTF-8 byte
sequence, by their byte encodings: ASCII `09`–`0D` and `20`; `C2 85`
(U+0085), `C2 A0` (U+00A0); `E1 9A 80` (U+1680); `E2 80 80`–`E2 80 8A`
(U+2000–U+200A), `E2 80 A8`, `E2 80 A9`, `E2 80 AF`; `E2 81 9F` (U+205F);
`E3 80 80` (U+3000).  On the valid UTF-8 produced by `from_utf8_lossy` this
is exactly `str::trim_start` with Rust's `char::is_whitespace`: none of
these encodings can occur inside another character. -/
def dropWsFwd : List Nat → List Nat
  | 9 :: r => dropWsFwd r
  | 10 :: r => dropWsFwd r
  | 11 :: r => dropWsFwd r
  | 12 :: r => dropWsFwd r
  | 13 :: r => dropWsFwd r
  | 32 :: r => dropWsFwd r
  | 0xC2 :: 0x85 :: r => dropWsFwd r
  | 0xC2 :: 0xA0 :: r => dropWsFwd r
  | 0xE1 :: 0x9A :: 0x80 :: r => dropWsFwd r
  | 0xE2 :: 0x81 :: 0x9F :: r => dropWsFwd r
  | 0xE3 :: 0x80 :: 0x80 :: r => dropWsFwd r
  | 0xE2 :: 0x80 :: c :: r =>
    if (0x80 ≤ c && c ≤ 0x8A) || c = 0xA8 || c = 0xA9 || c = 0xAF then dropWsFwd r
    else 0xE2 :: 0x80 :: c :: r
  | l => l

/-- The same scan on a reversed byte sequence (each whitespace encoding
reversed); applied after `List.reverse` it is `str::trim_end`. -/
def dropWsRev : List Nat → List Nat
  | 9 :: r => dropWsRev r
  | 10 :: r => dropWsRev r
  | 11 :: r => dropWsRev r
  | 12 :: r => dropWsRev r
  | 13 :: r => dropWsRev r
  | 32 :: r => dropWsRev r
  | 0x85 :: 0xC2 :: r => dropWsRev r
  | 0xA0 :: 0xC2 :: r => dropWsRev r
  | 0x80 :: 0x9A :: 0xE1 :: r => dropWsRev r
  | 0x9F :: 0x81 :: 0xE2 :: r => dropWsRev r
  | 0x80 :: 0x80 :: 0xE3 :: r => dropWsRev r
  | c :: 0x80 :: 0xE2 :: r =>
    if (0x80 ≤ c && c ≤ 0x8A) || c = 0xA8 || c = 0xA9 || c = 0xAF then dropWsRev r
    else c :: 0x80 :: 0xE2 :: r
  | l => l

/-- `str::trim` on UTF-8 bytes: drop leading and trailing Unicode
`White_Space` characters. -/
def trimBytes (l : List Nat) : List Nat :=
  (dropWsRev (dropWsFwd l).reverse).reverse

/-- `str::trim_end_matches('\0')`: drop every trailing NUL. -/
def trimEndNul (l : List Nat) : List Nat :=
  (l.reverse.dropWhile (· = 0)).reverse

/-- The remainder after the first NUL, or empty when there is none
(second element of `splitn(2, '\0')`, with `unwrap_or("")`). -/
def afterFirstNul (l : List Nat) : List Nat :=
  (l.dropWhile (· ≠ 0)).drop 1

/-- `decode_header` (`milter.rs` lines 257–265): lossy-decode the payload,
split at the first NUL into name and value, trim whitespace and trailing
NULs from both. -/
def decode_header_kv (payload : List Nat) : List Nat × List Nat :=
  let s := utf8Lossy payload
  (trimEndNul (trimBytes (s.takeWhile (· ≠ 0))),
   trimEndNul (trimBytes (afterFirstNul s)))

/-- `header_fields.entry(key).or_default().push(val)` on the association-list
representation: append the value to an existing key's list, or add a new
entry. -/
def entryPush (fields : List (List Nat × List (List Nat))) (k v : List Nat) :
    List (List Nat × List (List Nat)) :=
  if fields.any (fun p => p.1 = k) then
    fields.map (fun p => if p.1 = k then (p.1, p.2 ++ [v]) else p)
  else fields ++ [(k, [v])]

/-- `decode_data_macros` (`milter.rs` lines 196–210) sets `is_header_block`
exactly when the first non-empty NUL-separated record starts with `T`
(0x54, the start-of-header macro phase). -/
def data_sets_header_block (payload : List Nat) : Bool :=
  match ((payload.splitOn 0).filter (fun s => !s.isEmpty)) with
  | [] => false
  | p :: _ => (p.headD 0) = 0x54

/-- The 5-byte CONTINUE response frame `BE32(1) || 0x06`. -/
def CONTINUE_FRAME : List Nat := [0, 0, 0, 1, 0x06]

/-- The 5-byte ACCEPT response frame `BE32(1) || 0x61`. -/
def ACCEPT_FRAME : List Nat := [0, 0, 0, 1, 0x61]

/-- One iteration of `handle_client`'s loop after the frame has been read
(`client.rs` lines 102–241): dispatch on the command byte.  `none` means
`handle_client` returns (the session terminates: unrecognised command byte).
Otherwise the session continues with the new state, the response frames
written to the socket in order, the number of `parse_mail` invocations, and
the modelled log events. -/
def handleFrame (st : Session) (cmd : Nat) (payload : List Nat) :
    Option (Session × List (List Nat) × Nat × List LogEvent) :=
  match MilterCommand.from_u8 cmd with
  | none => none
  | some c =>
    match c with
    | .OptNeg =>
      match decode_optneg_resp payload with
      | some r => some (st, [r], 0, [])
      | none => some (st, [], 0, [.optnegShortPayload payload.length])
    | .Connect => some (st, [CONTINUE_FRAME], 0, [])
    | .HeLO => some (st, [CONTINUE_FRAME], 0, [])
    | .Data =>
      some ({ st with is_header_block := data_sets_header_block payload || st.is_header_block },
        [], 0, [])
    | .Header =>
      let kv := decode_header_kv payload
      some ({ st with header_fields := entryPush st.header_fields kv.1 kv.2 }, [], 0, [])
    | .Body =>
      some ({ st with
          is_body_eob := true
          is_header_block := false
          body_field := st.body_field ++ utf8Lossy payload },
        [], 0, [])
    | .Eoh =>
      if st.is_body_eob then
        some ({ st with
            is_body_eob := false
            header_fields := []
            body_field := [] },
          [ACCEPT_FRAME], 1, [])
      else
        some (st, [CONTINUE_FRAME], 0, [])
    | _ =>
      some (st, [], 0, if payload.isEmpty then [] else [.payloadHexDump (hexDump payload)])

/-- The new session state after a frame, when the session continues. -/
def stepSession (st : Session) (f : Nat × List Nat) : Option Session :=
  (handleFrame st f.1 f.2).map (fun r => r.1)

/-- Run a sequence of frames through `handle_client`'s loop. -/
def runSession (st : Session) (fs : List (Nat × List Nat)) : Option Session :=
  fs.foldlM stepSession st

/-- `size.saturating_sub(1)` (`client.rs` line 138); `Nat` subtraction is
saturating. -/
def remainingOf (size : Nat) : Nat := size - 1

/-- Processing of one frame given the declared 4-byte length field and the
stream contents: the payload read in phase 3 is `size.saturating_sub(1)`
bytes of the stream, then the command is dispatched. -/
def processFrame (st : Session) (size : Nat) (cmd : Nat) (stream : List Nat) :
    Option (Session × List (List Nat) × Nat × List LogEvent) :=
  handleFrame st cmd (stream.take (remainingOf size))

/-! ## Claims about `handle_client`'s dispatch -/

/-- C2: a 0x45 frame with `is_body_eob` false elicits CONTINUE (0x06) and
does not invoke `parse_mail`; with `is_body_eob` true it elicits ACCEPT
(0x61) and invokes `parse_mail` exactly once, after which `header_fields`
and `body_field` are empty and `is_body_eob` is false. -/
theorem handleFrame_eoh_bodyeob (st : Session) (payload : List Nat) :
    (st.is_body_eob = false →
      handleFrame st 0x45 payload = some (st, [CONTINUE_FRAME], 0, [])) ∧
    (st.is_body_eob = true →
      handleFrame st 0x45 payload =
        some ({ st with is_body_eob := false, header_fields := [], body_field := [] },
          [ACCEPT_FRAME], 1, [])) := by
  constructor <;> intro h <;> simp [handleFrame, MilterCommand.from_u8, h]

/-- Witness for C2, at a state with a pending transaction. -/
theorem handleFrame_eoh_bodyeob_witness :
    ({ initialSession with is_body_eob := true, body_field := [65] } : Session).is_body_eob
      = true ∧
    handleFrame { initialSession with is_body_eob := true, body_field := [65] } 0x45 [] =
      some (initialSession, [ACCEPT_FRAME], 1, []) := by
  refine ⟨rfl, ?_⟩
  have h := (handleFrame_eoh_bodyeob
    { initialSession with is_body_eob := true, body_field := [65] } []).2 rfl
  simpa using h

/-- C3 counterexample: an OPTNEG frame whose payload has only 11 bytes does
NOT terminate the session — `handle_client` logs the short payload and keeps
reading frames, contradicting the claim that it returns. -/
theorem optneg_short_counterexample :
    handleFrame initialSession 0x4F (List.replicate 11 0) =
      some (initialSession, [], 0, [.optnegShortPayload 11]) ∧
    handleFrame initialSession 0x4F (List.replicate 11 0) ≠ none := by
  constructor <;> decide

/-- C3 (amended): for every OPTNEG frame with payload shorter than 12 bytes
the error is logged, no response frame is written, the session state is
unchanged, and the session continues (`handle_client` does not return). -/
theorem optneg_short_logs_and_continues (st : Session) (payload : List Nat)
    (h : payload.length < 12) :
    handleFrame st 0x4F payload =
      some (st, [], 0, [.optnegShortPayload payload.length]) := by
  have h12 : ¬ 12 ≤ payload.length := by omega
  simp [handleFrame, MilterCommand.from_u8, decode_optneg_resp, h12]

/-- Witness for the amended C3. -/
theorem optneg_short_logs_and_continues_witness :
    ([0, 0, 0, 6] : List Nat).length < 12 ∧
    handleFrame initialSession 0x4F [0, 0, 0, 6] =
      some (initialSession, [], 0, [.optnegShortPayload 4]) :=
  ⟨by decide, optneg_short_logs_and_continues initialSession [0, 0, 0, 6] (by decide)⟩

/-- C7: an unrecognised command byte terminates the session
(`handle_client` returns); each recognised command other than OPTNEG,
CONNECT, HELO, DATA, HEADER, BODY and EOH — i.e. ABORT, QUIT, RCPT, EOM,
ADDHEADER, DELHEADER, DELRCPT, ACCEPT — leaves the state unchanged, writes
no response, logs a hex dump of a non-empty payload, and the session
continues. -/
theorem handleFrame_unknown_and_passive (st : Session) (payload : List Nat) :
    (∀ cmd, MilterCommand.from_u8 cmd = none → handleFrame st cmd payload = none) ∧
    (∀ cmd ∈ [0x41, 0x51, 0x52, 0x4D, 0x68, 0x64, 0x72, 0x61],
      handleFrame st cmd payload =
        some (st, [], 0,
          if payload.isEmpty then [] else [.payloadHexDump (hexDump payload)])) := by
  constructor
  · intro cmd h
    simp [handleFrame, h]
  · intro cmd hmem
    fin_cases hmem <;> simp [handleFrame, MilterCommand.from_u8]

/-- Witness for C7: command byte 0x00 is unrecognised and kills the session;
ABORT (0x41) with payload `DE AD` logs `"DE AD"` and continues. -/
theorem handleFrame_unknown_and_passive_witness :
    MilterCommand.from_u8 0 = none ∧
    handleFrame initialSession 0 [1, 2] = none ∧
    (0x41 : Nat) ∈ [0x41, 0x51, 0x52, 0x4D, 0x68, 0x64, 0x72, 0x61] ∧
    handleFrame initialSession 0x41 [0xDE, 0xAD] =
      some (initialSession, [], 0, [.payloadHexDump [68, 69, 32, 65, 68]]) := by
  refine ⟨by decide, (handleFrame_unknown_and_passive initialSession [1, 2]).1 0 (by decide),
    by decide, ?_⟩
  have h := (handleFrame_unknown_and_passive initialSession [0xDE, 0xAD]).2 0x41 (by decide)
  simpa [hexDump, byteHex, hexDigit, List.intercalate] using h

/-- C8: ABORT (0x41) leaves every session accumulator unchanged — the state
after the frame equals the state before; no response is written. -/
theorem handleFrame_abort_preserves_state (st : Session) (payload : List Nat) :
    handleFrame st 0x41 payload =
      some (st, [], 0,
        if payload.isEmpty then [] else [.payloadHexDump (hexDump payload)]) := by
  simp [handleFrame, MilterCommand.from_u8]

/-- C10: a frame with declared length 0 cannot underflow: the saturating
subtraction makes the payload empty and the command byte is dispatched
exactly as for a length-1 frame. -/
theorem processFrame_zero_length_safe (st : Session) (cmd : Nat) (stream : List Nat) :
    processFrame st 0 cmd stream = processFrame st 1 cmd stream ∧
    processFrame st 0 cmd stream = handleFrame st cmd [] := by
  constructor <;> simp [processFrame, remainingOf]

/-! ## Claim C5: body accumulation (`decode_body`, `milter.rs` lines 268–272)

`decode_body` appends `String::from_utf8_lossy(payload)` to the `String`
`body_field`; the accumulated bytes are therefore the concatenation of the
lossy decodings, which coincides with the raw payload bytes only when each
payload is valid UTF-8. -/

/-- C5 counterexample: a single BODY frame with payload `[0xFF]` leaves
`body_field = EF BF BD` (U+FFFD), not the verbatim byte `FF`: the
accumulated body is not the byte concatenation of the payloads. -/
theorem body_not_verbatim_counterexample :
    runSession initialSession [(0x42, [0xFF])] =
      some { initialSession with is_body_eob := true, body_field := repChar } ∧
    repChar ≠ ([[0xFF]] : List (List Nat)).flatten := by
  constructor
  · simp [runSession, stepSession, handleFrame, MilterCommand.from_u8, utf8Lossy,
      initialSession, repChar]
  · decide

/-- C5 (amended): for every sequence of BODY frames, the accumulated
`body_field` is the concatenation of the UTF-8-lossy decodings of the
payloads in arrival order; when every payload is valid UTF-8 this is the
verbatim byte concatenation of the payloads. -/
theorem body_frames_accumulate_lossy (st : Session) (ps : List (List Nat)) :
    ∃ st', runSession st (ps.map (fun p => (0x42, p))) = some st' ∧
      st'.body_field = st.body_field ++ (ps.map utf8Lossy).flatten ∧
      ((∀ p ∈ ps, utf8Valid p = true) → st'.body_field = st.body_field ++ ps.flatten) := by
  induction ps generalizing st with
  | nil => exact ⟨st, rfl, by simp, fun _ => by simp⟩
  | cons p rest ih =>
    obtain ⟨st', h1, h2, h3⟩ := ih { st with
      is_body_eob := true
      is_header_block := false
      body_field := st.body_field ++ utf8Lossy p }
    refine ⟨st', ?_, ?_, ?_⟩
    · rw [List.map_cons, runSession, List.foldlM_cons]
      have hstep : stepSession st (0x42, p) = some { st with
          is_body_eob := true
          is_header_block := false
          body_field := st.body_field ++ utf8Lossy p } := by
        simp [stepSession, handleFrame, MilterCommand.from_u8]
      rw [hstep]
      exact h1
    · rw [h2]; simp
    · intro hv
      have h3' := h3 (fun q hq => hv q (by simp [hq]))
      rw [h3', utf8Lossy_of_valid p (hv p (by simp))]
      simp

/-- Witness for the amended C5: one valid-UTF-8 BODY payload `"Hi"`. -/
theorem body_frames_accumulate_lossy_witness :
    (∀ p ∈ ([[72, 105]] : List (List Nat)), utf8Valid p = true) ∧
    (∃ st', runSession initialSession (([[72, 105]] : List (List Nat)).map (fun p => (0x42, p))) = some st' ∧
      st'.body_field = initialSession.body_field ++ (([[72, 105]] : List (List Nat)).map utf8Lossy).flatten ∧
      ((∀ p ∈ ([[72, 105]] : List (List Nat)), utf8Valid p = true) →
        st'.body_field = initialSession.body_field ++ ([[72, 105]] : List (List Nat)).flatten)) :=
  ⟨by decide, body_frames_accumulate_lossy initialSession [[72, 105]]⟩

/-! ## Claim C6: body CRLF normalisation (`parse.rs` line 51)

`let body_crlf = body_field.replace("\r\n", "\n").replace('\n', "\r\n");`
modelled on the UTF-8 bytes of the string (CR = 13, LF = 10; both are
single-byte chars, so `str::replace` with these patterns is a byte-level
scan for non-overlapping matches, left to right). -/

/-- `.replace("\r\n", "\n")`: collapse every CRLF pair to LF. -/
def replace_crlf_lf : List Nat → List Nat
  | [] => []
  | [b] => [b]
  | b :: c :: rest =>
    if b = 13 ∧ c = 10 then 10 :: replace_crlf_lf rest
    else b :: replace_crlf_lf (c :: rest)
termination_by l => l.length
decreasing_by all_goals simp_arith

/-- `.replace('\n', "\r\n")`: expand every LF to CRLF. -/
def replace_lf_crlf : List Nat → List Nat
  | [] => []
  | b :: rest =>
    if b = 10 then 13 :: 10 :: replace_lf_crlf rest
    else b :: replace_lf_crlf rest

/-- The normalised body built by `parse_mail`: first collapse CRLF to LF,
then expand LF to CRLF. -/
def body_crlf (body : List Nat) : List Nat := replace_lf_crlf (replace_crlf_lf body)

/-- Every CR in the byte sequence is immediately followed by LF (the input's
line endings are LF or CRLF — no bare CR). -/
def noBareCR : List Nat → Bool
  | [] => true
  | b :: rest =>
    if b = 13 then
      match rest with
      | [] => false
      | c :: rest2 => if c = 10 then noBareCR rest2 else false
    else noBareCR rest

/-- The byte sequence uses only CRLF line endings: every LF is immediately
preceded by CR and every CR is immediately followed by LF. -/
def crlfOnly : List Nat → Bool
  | [] => true
  | b :: rest =>
    if b = 10 then false
    else if b = 13 then
      match rest with
      | [] => false
      | c :: rest2 => if c = 10 then crlfOnly rest2 else false
    else crlfOnly rest

theorem replace_lf_crlf_ne_nil {l : List Nat} (h : l ≠ []) : replace_lf_crlf l ≠ [] := by
  match l with
  | [] => exact absurd rfl h
  | b :: rest =>
    rw [replace_lf_crlf]
    split <;> simp

theorem replace_lf_crlf_head_ne_lf {l : List Nat} {x : Nat} {t : List Nat}
    (h : replace_lf_crlf l = x :: t) : x ≠ 10 := by
  match l with
  | [] => simp [replace_lf_crlf] at h
  | b :: rest =>
    rw [replace_lf_crlf] at h
    by_cases hb : b = 10
    · rw [if_pos hb] at h
      injection h with h1 h2
      omega
    · rw [if_neg hb] at h
      injection h with h1 h2
      intro hx
      exact hb (h1 ▸ hx)

/-- Collapsing after expanding recovers the original sequence. -/
theorem replace_crlf_lf_replace_lf_crlf (l : List Nat) :
    replace_crlf_lf (replace_lf_crlf l) = l := by
  induction l with
  | nil => simp [replace_lf_crlf, replace_crlf_lf]
  | cons b rest ih =>
    rw [replace_lf_crlf]
    by_cases hb : b = 10
    · rw [if_pos hb, replace_crlf_lf, if_pos ⟨rfl, rfl⟩, ih, hb]
    · rw [if_neg hb]
      match hrest : replace_lf_crlf rest with
      | [] =>
        have hrest0 : rest = [] := by
          by_contra hne
          exact replace_lf_crlf_ne_nil hne hrest
        subst hrest0
        simp [replace_crlf_lf]
      | c :: t =>
        have hc : c ≠ 10 := replace_lf_crlf_head_ne_lf hrest
        rw [replace_crlf_lf, if_neg (by intro hand; exact hc hand.2), ← hrest, ih]

/-- If every CR of the input is part of a CRLF pair, collapsing leaves no CR
at all. -/
theorem not_cr_mem_replace_crlf_lf : ∀ l : List Nat, noBareCR l = true → 13 ∉ replace_crlf_lf l := by
  intro l h
  induction l using replace_crlf_lf.induct with
  | case1 => simp [replace_crlf_lf]
  | case2 b =>
    rw [replace_crlf_lf]
    rw [noBareCR] at h
    by_cases hb : b = 13
    · rw [if_pos hb] at h
      simp at h
    · simp only [List.mem_singleton]
      omega
  | case3 b c rest hcond ih =>
    rw [replace_crlf_lf, if_pos hcond]
    rw [noBareCR, if_pos hcond.1] at h
    rw [if_pos hcond.2] at h
    simp [ih h]
  | case4 b c rest hcond ih =>
    rw [replace_crlf_lf, if_neg hcond]
    rw [noBareCR] at h
    by_cases hb : b = 13
    · rw [if_pos hb] at h
      have hc : ¬ c = 10 := fun hc => hcond ⟨hb, hc⟩
      rw [if_neg hc] at h
      simp at h
    · rw [if_neg hb] at h
      intro hmem
      rcases List.mem_cons.mp hmem with h13 | h13
      · exact hb h13.symm
      · exact ih h h13

/-- Expanding a CR-free sequence yields a CRLF-only sequence. -/
theorem crlfOnly_replace_lf_crlf : ∀ l : List Nat, 13 ∉ l → crlfOnly (replace_lf_crlf l) = true := by
  intro l h
  induction l with
  | nil => simp [replace_lf_crlf, crlfOnly]
  | cons b rest ih =>
    rw [replace_lf_crlf]
    by_cases hb : b = 10
    · rw [if_pos hb]
      simp only [crlfOnly]
      simp [ih (fun hm => h (List.mem_cons_of_mem _ hm))]
    · rw [if_neg hb]
      have hb13 : b ≠ 13 := fun hh => h (hh ▸ List.mem_cons_self _ _)
      rw [crlfOnly.eq_def]
      dsimp only
      rw [if_neg hb, if_neg hb13]
      exact ih (fun hm => h (List.mem_cons_of_mem _ hm))

/-- C6: the body normalisation of `parse_mail` (collapse `"\r\n"` to `"\n"`,
then expand `"\n"` to `"\r\n"`) is idempotent, and on every input whose line
endings are LF, CRLF or a mixture the result uses only CRLF line endings. -/
theorem body_crlf_canonical (bs : List Nat) :
    body_crlf (body_crlf bs) = body_crlf bs ∧
    (noBareCR bs = true → crlfOnly (body_crlf bs) = true) := by
  constructor
  · unfold body_crlf
    rw [replace_crlf_lf_replace_lf_crlf]
  · intro h
    exact crlfOnly_replace_lf_crlf _ (not_cr_mem_replace_crlf_lf _ h)

/-- Witness for C6 at the mixed-endings input `"Hi\nB\r\n"`. -/
theorem body_crlf_canonical_witness :
    noBareCR [72, 105, 10, 66, 13, 10] = true ∧
    crlfOnly (body_crlf [72, 105, 10, 66, 13, 10]) = true :=
  ⟨by decide, (body_crlf_canonical [72, 105, 10, 66, 13, 10]).2 (by decide)⟩

/-! ## Claim C4: header listing order (`parse.rs` lines 41–46)

`parse_mail` iterates `for (k, vlist) in header_fields` over a Rust
`HashMap`, whose iteration order is explicitly arbitrary (`RandomState`).
The iteration order is therefore a parameter here: any permutation of the
stored keys is a possible run of the loop. -/


/-- The value list the map stores under key `k`, empty when the key is
absent (first match in the association-list representation). -/
def lookupD : List (List Nat × List (List Nat)) → List Nat → List (List Nat)
  | [], _ => []
  | p :: rest, k => if p.1 = k then p.2 else lookupD rest k

/-- The header lines `k ++ ": " ++ v ++ "\r\n"` emitted by `parse_mail` when
the `HashMap` yields its entries in the order `order` (`parse.rs` lines
41–46: for each entry, all of its values in stored order). -/
def headerLines (fields : List (List Nat × List (List Nat))) (order : List (List Nat)) :
    List (List Nat) :=
  order.flatMap (fun k => (lookupD fields k).map (fun v => k ++ [58, 32] ++ v ++ [13, 10]))

/-- The map contents after a sequence of already-decoded HEADER pairs
(each HEADER frame runs `header_fields.entry(key).or_default().push(val)`,
`milter.rs` line 264). -/
def accumHeaders (pairs : List (List Nat × List Nat)) : List (List Nat × List (List Nat)) :=
  pairs.foldl (fun fs kv => entryPush fs kv.1 kv.2) []

theorem lookupD_map_update_ne (rest : List (List Nat × List (List Nat))) (k v k' : _)
    (hk : k' ≠ k) :
    lookupD (rest.map fun p => if p.1 = k then (p.1, p.2 ++ [v]) else p) k' =
      lookupD rest k' := by
  induction rest with
  | nil => rfl
  | cons p rest ih =>
    by_cases hp : p.1 = k
    · have hpk : ¬ p.1 = k' := fun h => hk (h ▸ hp)
      rw [List.map_cons, if_pos hp, lookupD, lookupD, if_neg hpk, if_neg hpk, ih]
    · rw [List.map_cons, if_neg hp, lookupD, lookupD]
      by_cases hpk : p.1 = k'
      · rw [if_pos hpk, if_pos hpk]
      · rw [if_neg hpk, if_neg hpk, ih]

theorem lookupD_map_update (fields : List (List Nat × List (List Nat))) (k v : _)
    (hany : fields.any (fun p => p.1 = k) = true) :
    lookupD (fields.map fun p => if p.1 = k then (p.1, p.2 ++ [v]) else p) k =
      lookupD fields k ++ [v] := by
  induction fields with
  | nil => simp at hany
  | cons p rest ih =>
    simp only [List.any_cons, Bool.or_eq_true, decide_eq_true_eq] at hany
    by_cases hp : p.1 = k
    · rw [List.map_cons, if_pos hp, lookupD, lookupD, if_pos hp, if_pos hp]
    · rw [List.map_cons, if_neg hp, lookupD, lookupD, if_neg hp, if_neg hp]
      exact ih (hany.resolve_left hp)

theorem any_false_lookupD_nil (fields : List (List Nat × List (List Nat))) (k : List Nat)
    (h : fields.any (fun p => p.1 = k) = false) : lookupD fields k = [] := by
  induction fields with
  | nil => rfl
  | cons p rest ih =>
    simp only [List.any_cons, Bool.or_eq_false_iff, decide_eq_false_iff_not] at h
    rw [lookupD, if_neg h.1]
    exact ih h.2

theorem lookupD_append_single (fields : List (List Nat × List (List Nat))) (k v k' : _)
    (hnone : fields.any (fun p => p.1 = k) = false) :
    lookupD (fields ++ [(k, [v])]) k' =
      if k' = k then lookupD fields k' ++ [v] else lookupD fields k' := by
  induction fields with
  | nil =>
    by_cases hk : k' = k
    · subst hk
      simp [lookupD]
    · simp only [List.nil_append, lookupD, if_neg hk]
      rw [if_neg (fun h : k = k' => hk h.symm)]
  | cons p rest ih =>
    simp only [List.any_cons, Bool.or_eq_false_iff, decide_eq_false_iff_not] at hnone
    rw [List.cons_append, lookupD, lookupD]
    by_cases hp : p.1 = k'
    · have hk : ¬ k' = k := fun h => hnone.1 (h ▸ hp)
      rw [if_pos hp, if_pos hp, if_neg hk]
    · rw [if_neg hp, if_neg hp, ih hnone.2]

/-- The single-step effect of `entry(key).or_default().push(val)` on
lookups. -/
theorem lookupD_entryPush (fields : List (List Nat × List (List Nat))) (k v k' : _) :
    lookupD (entryPush fields k v) k' =
      if k' = k then lookupD fields k' ++ [v] else lookupD fields k' := by
  unfold entryPush
  by_cases hany : fields.any (fun p => p.1 = k) = true
  · rw [if_pos hany]
    by_cases hk : k' = k
    · subst hk
      rw [if_pos rfl, lookupD_map_update fields k' v hany]
    · rw [if_neg hk, lookupD_map_update_ne fields k v k' hk]
  · rw [if_neg hany]
    exact lookupD_append_single fields k v k' (Bool.eq_false_iff.mpr hany)

/-- Folding HEADER pairs into the map: each key's stored list is exactly
that key's values in arrival order. -/
theorem lookupD_accumHeaders_aux (pairs : List (List Nat × List Nat)) :
    ∀ (fields : List (List Nat × List (List Nat))) (k : List Nat),
      lookupD (pairs.foldl (fun fs kv => entryPush fs kv.1 kv.2) fields) k =
        lookupD fields k ++ (pairs.filter (fun p => p.1 = k)).map Prod.snd := by
  induction pairs with
  | nil =>
    intro fields k
    simp
  | cons q rest ih =>
    intro fields k
    rw [List.foldl_cons, ih, lookupD_entryPush, List.filter_cons]
    by_cases hk : k = q.1
    · rw [if_pos hk, if_pos (by simp [hk.symm])]
      simp
    · rw [if_neg hk, if_neg (by simp only [decide_eq_true_eq]; exact fun h => hk h.symm)]

/-- C4 counterexample: with HEADER pairs `("A","1")` then `("B","2")`, the
iteration order `[B, A]` is a permutation of the stored keys (so a possible
`HashMap` iteration), yet the emitted header lines differ from the
insertion-order listing: `parse_mail` does not list distinct names in
insertion order. -/
theorem header_insertion_order_counterexample :
    (([[66], [65]] : List (List Nat)).Perm
      ((accumHeaders [([65], [49]), ([66], [50])]).map Prod.fst)) ∧
    headerLines (accumHeaders [([65], [49]), ([66], [50])]) [[66], [65]] ≠
      headerLines (accumHeaders [([65], [49]), ([66], [50])])
        ((accumHeaders [([65], [49]), ([66], [50])]).map Prod.fst) := by
  constructor <;> decide

/-- C4 (amended): for every sequence of HEADER pairs and every iteration
order the `HashMap` may produce (any permutation of the stored keys), the
emitted header lines are a permutation, grouped by name, of the
insertion-order listing, and the lines of each name carry that name's values
in arrival order; the order of distinct names is the map's iteration order,
not necessarily insertion order. -/
theorem parse_mail_header_lines (pairs : List (List Nat × List Nat)) (order : List (List Nat))
    (h : order.Perm ((accumHeaders pairs).map Prod.fst)) :
    (headerLines (accumHeaders pairs) order).Perm
      (headerLines (accumHeaders pairs) ((accumHeaders pairs).map Prod.fst)) ∧
    ∀ k, lookupD (accumHeaders pairs) k =
      (pairs.filter (fun p => p.1 = k)).map Prod.snd := by
  constructor
  · unfold headerLines
    exact h.flatMap_right _
  · intro k
    unfold accumHeaders
    simpa [lookupD] using lookupD_accumHeaders_aux pairs [] k

/-- Witness for the amended C4. -/
theorem parse_mail_header_lines_witness :
    (([[65]] : List (List Nat)).Perm ((accumHeaders [([65], [49])]).map Prod.fst)) ∧
    ((headerLines (accumHeaders [([65], [49])]) [[65]]).Perm
      (headerLines (accumHeaders [([65], [49])]) ((accumHeaders [([65], [49])]).map Prod.fst)) ∧
     ∀ k, lookupD (accumHeaders [([65], [49])]) k =
       (([([65], [49])] : List (List Nat × List Nat)).filter (fun p => p.1 = k)).map Prod.snd) :=
  ⟨by decide, parse_mail_header_lines [([65], [49])] [[65]] (by decide)⟩

/-! ## Claim C9: configuration loading (`load_config`, `init.rs` lines 33–59)

Lines of the file are lists of characters.  Each line is trimmed; a
`"Listen "` prefix sets the address (wrapping a value without `':'` in
`"[::]:"`), a `"Client_timeout "` prefix sets the timeout when the value
parses as a `u64`, anything else is ignored.  Defaults: `[::]:8898` and 30
seconds. -/

/-- `Config` (`init.rs` lines 22–25), the address as its characters. -/
structure Config where
  address : List Char
  client_timeout : Nat
deriving DecidableEq, Repr

/-- Rust's `char::is_whitespace`, the Unicode `White_Space` property:
U+0009–U+000D, U+0020, U+0085, U+00A0, U+1680, U+2000–U+200A, U+2028,
U+2029, U+202F, U+205F and U+3000. -/
def rustIsWhitespace (c : Char) : Bool :=
  (0x09 ≤ c.toNat && c.toNat ≤ 0x0D) || c.toNat = 0x20 || c.toNat = 0x85 ||
  c.toNat = 0xA0 || c.toNat = 0x1680 || (0x2000 ≤ c.toNat && c.toNat ≤ 0x200A) ||
  c.toNat = 0x2028 || c.toNat = 0x2029 || c.toNat = 0x202F || c.toNat = 0x205F ||
  c.toNat = 0x3000

/-- `str::trim` on a line (drop Unicode `White_Space` from both ends). -/
def trimChars (l : List Char) : List Char :=
  ((l.dropWhile rustIsWhitespace).reverse.dropWhile rustIsWhitespace).reverse

/-- `u64::from_str`: optional leading `+`, one or more digits, value at most
`u64::MAX`. -/
def parseU64 (l : List Char) : Option Nat :=
  let digits := if l.headD ' ' = '+' then l.drop 1 else l
  if digits ≠ [] ∧ digits.all Char.isDigit then
    let v := digits.foldl (fun a c => a * 10 + (c.toNat - 48)) 0
    if v < 2 ^ 64 then some v else none
  else none

/-- One line of `load_config`'s loop: the accumulator is the pending
`address` option and the current `client_timeout`. -/
def processLine (st : Option (List Char) × Nat) (line : List Char) :
    Option (List Char) × Nat :=
  let line := trimChars line
  if ("Listen ".toList).isPrefixOf line then
    let addr := trimChars (line.drop 7)
    if addr.contains ':' then (some addr, st.2)
    else (some ("[::]:".toList ++ addr), st.2)
  else if ("Client_timeout ".toList).isPrefixOf line then
    match parseU64 (trimChars (line.drop 15)) with
    | some v => (st.1, v)
    | none => st
  else st

/-- `load_config` over the file's lines, with the defaults of `init.rs`. -/
def load_config (lines : List (List Char)) : Config :=
  let st := lines.foldl processLine (none, 30)
  { address := st.1.getD "[::]:8898".toList, client_timeout := st.2 }

theorem dropWhile_ws_cons (a : Char) (t : List Char) (ha : rustIsWhitespace a = false) :
    (a :: t).dropWhile rustIsWhitespace = a :: t := by
  rw [List.dropWhile_cons, if_neg (by simp [ha])]

/-- A list whose two ends are not whitespace is unchanged by trimming. -/
theorem trimChars_sandwich (a b : Char) (mid : List Char)
    (ha : rustIsWhitespace a = false) (hb : rustIsWhitespace b = false) :
    trimChars (a :: (mid ++ [b])) = a :: (mid ++ [b]) := by
  unfold trimChars
  rw [dropWhile_ws_cons a _ ha]
  have h2 : (a :: (mid ++ [b])).reverse = b :: (mid.reverse ++ [a]) := by simp
  rw [h2, dropWhile_ws_cons b _ hb, ← h2, List.reverse_reverse]

/-- A list with no whitespace at all is unchanged by trimming. -/
theorem trimChars_eq_self (l : List Char) (h : ∀ c ∈ l, rustIsWhitespace c = false) :
    trimChars l = l := by
  unfold trimChars
  have h1 : l.dropWhile rustIsWhitespace = l := by
    cases l with
    | nil => rfl
    | cons a t => exact dropWhile_ws_cons a t (h a (List.mem_cons_self a t))
  rw [h1]
  have h2 : l.reverse.dropWhile rustIsWhitespace = l.reverse := by
    cases hr : l.reverse with
    | nil => rfl
    | cons a t =>
      refine dropWhile_ws_cons a t (h a ?_)
      have : a ∈ l.reverse := by rw [hr]; exact List.mem_cons_self a t
      exact List.mem_reverse.mp this
  rw [h2, List.reverse_reverse]

theorem foldl_processLine_timeout (lines : List (List Char)) :
    ∀ st : Option (List Char) × Nat,
      (∀ line ∈ lines, ¬ (("Client_timeout ".toList).isPrefixOf (trimChars line) = true ∧
        (parseU64 (trimChars ((trimChars line).drop 15))).isSome = true)) →
      (lines.foldl processLine st).2 = st.2 := by
  induction lines with
  | nil => intro st _; rfl
  | cons l rest ih =>
    intro st h
    rw [List.foldl_cons]
    rw [ih _ (fun x hx => h x (List.mem_cons_of_mem _ hx))]
    have hl := h l (List.mem_cons_self _ _)
    unfold processLine
    by_cases hL : ("Listen ".toList).isPrefixOf (trimChars l) = true
    · rw [if_pos hL]
      by_cases hc : (trimChars ((trimChars l).drop 7)).contains ':' = true
      · rw [if_pos hc]
      · rw [if_neg hc]
    · rw [if_neg hL]
      by_cases hC : ("Client_timeout ".toList).isPrefixOf (trimChars l) = true
      · rw [if_pos hC]
        cases hp : parseU64 (trimChars ((trimChars l).drop 15)) with
        | none => rfl
        | some v => exact absurd ⟨hC, by rw [hp]; rfl⟩ hl
      · rw [if_neg hC]

theorem foldl_processLine_address (lines : List (List Char)) :
    ∀ st : Option (List Char) × Nat,
      (∀ line ∈ lines, ¬ ("Listen ".toList).isPrefixOf (trimChars line) = true) →
      (lines.foldl processLine st).1 = st.1 := by
  induction lines with
  | nil => intro st _; rfl
  | cons l rest ih =>
    intro st h
    rw [List.foldl_cons]
    rw [ih _ (fun x hx => h x (List.mem_cons_of_mem _ hx))]
    have hl := h l (List.mem_cons_self _ _)
    unfold processLine
    rw [if_neg hl]
    by_cases hC : ("Client_timeout ".toList).isPrefixOf (trimChars l) = true
    · rw [if_pos hC]
      cases hp : parseU64 (trimChars ((trimChars l).drop 15)) with
      | none => rfl
      | some v => rfl
    · rw [if_neg hC]

/-- C9: a `Listen` directive with a bare (colon-free) value `P` yields the
address `"[::]:" ++ P`; when no `Client_timeout` directive parses as an
integer the timeout stays 30; when no `Listen` directive is present the
address stays `[::]:8898`; and a line carrying neither directive leaves the
accumulator unchanged. -/
theorem load_config_spec :
    (∀ (pre : List (List Char)) (P : List Char), P ≠ [] →
      (∀ c ∈ P, rustIsWhitespace c = false) → P.contains ':' = false →
      (load_config (pre ++ ["Listen ".toList ++ P])).address = "[::]:".toList ++ P) ∧
    (∀ lines : List (List Char),
      (∀ line ∈ lines, ¬ (("Client_timeout ".toList).isPrefixOf (trimChars line) = true ∧
        (parseU64 (trimChars ((trimChars line).drop 15))).isSome = true)) →
      (load_config lines).client_timeout = 30) ∧
    (∀ lines : List (List Char),
      (∀ line ∈ lines, ¬ ("Listen ".toList).isPrefixOf (trimChars line) = true) →
      (load_config lines).address = "[::]:8898".toList) ∧
    (∀ (st : Option (List Char) × Nat) (line : List Char),
      ¬ ("Listen ".toList).isPrefixOf (trimChars line) = true →
      ¬ ("Client_timeout ".toList).isPrefixOf (trimChars line) = true →
      processLine st line = st) := by
  refine ⟨?_, ?_, ?_, ?_⟩
  · intro pre P hne hws hcol
    obtain ⟨Q, q, rfl⟩ : ∃ Q q, P = Q ++ [q] := by
      rcases List.eq_nil_or_concat P with h | ⟨Q, q, h⟩
      · exact absurd h hne
      · exact ⟨Q, q, by simpa [List.concat_eq_append] using h⟩
    have hq : rustIsWhitespace q = false := hws q (by simp)
    have hshape : "Listen ".toList ++ (Q ++ [q]) = 'L' :: (("isten ".toList ++ Q) ++ [q]) := by
      simp
    have htrim : trimChars ("Listen ".toList ++ (Q ++ [q])) = "Listen ".toList ++ (Q ++ [q]) := by
      rw [hshape, trimChars_sandwich 'L' q _ (by decide) hq, ← hshape]
    have htrimP : trimChars (Q ++ [q]) = Q ++ [q] := trimChars_eq_self _ hws
    unfold load_config
    rw [List.foldl_append, List.foldl_cons, List.foldl_nil]
    unfold processLine
    rw [htrim]
    rw [if_pos (by
      have : "Listen ".toList <+: "Listen ".toList ++ (Q ++ [q]) := List.prefix_append _ _
      exact List.isPrefixOf_iff_prefix.mpr this)]
    have hdrop : ("Listen ".toList ++ (Q ++ [q])).drop 7 = Q ++ [q] := by
      have h7 : ("Listen ".toList).length = 7 := by decide
      rw [← h7, List.drop_left]
    rw [hdrop, htrimP, if_neg (by rw [hcol]; simp)]
    rfl
  · intro lines h
    unfold load_config
    dsimp only
    rw [foldl_processLine_timeout lines _ h]
  · intro lines h
    unfold load_config
    dsimp only
    rw [foldl_processLine_address lines _ h]
    rfl
  · intro st line h1 h2
    unfold processLine
    rw [if_neg h1, if_neg h2]

/-- Witness for C9: the file `["# comment", "Listen 2525"]`. -/
theorem load_config_spec_witness :
    (("2525".toList : List Char) ≠ [] ∧
      (∀ c ∈ "2525".toList, rustIsWhitespace c = false) ∧
      ("2525".toList).contains ':' = false ∧
      (load_config (["# comment".toList] ++ ["Listen ".toList ++ "2525".toList])).address =
        "[::]:".toList ++ "2525".toList) ∧
    (load_config ["# comment".toList, "Listen 2525".toList]).client_timeout = 30 := by
  constructor
  · refine ⟨by decide, by decide, by decide, ?_⟩
    exact load_config_spec.1 ["# comment".toList] "2525".toList (by decide) (by decide) (by decide)
  · exact load_config_spec.2.1 ["# comment".toList, "Listen 2525".toList] (by decide)
